import Mathlib

/-!
Verification of the gossh-wasm browser SSH client core.

This file gives a shallow embedding, in Lean 4, of the pure control and
data logic of the gossh-wasm repository (WebSocket transport adapter,
port-forward tunnel framing and HTTP header filtering, SFTP path
rendering and recursive removal, transfer-size policy, streaming
download registry, session teardown, and the random-art renderer), and
proves or refutes the specification claims about them.

Go byte strings are modelled as `List Nat` (each element a byte value),
Go strings as Lean `String`, Go maps/registries as association lists,
and the mutable state touched by an operation as an explicit state
record threaded through a step function.  Machine integers are `Nat`
(with explicit `% 256` where Go's `byte` arithmetic wraps).
-/

/-! ## Port forwarder helpers (src/portforward.go) -/

/-- Embeds `containsCRLF` (src/portforward.go:616-623): true iff the
string contains a carriage return or line feed. -/
def containsCRLF (s : String) : Bool :=
  s.data.any fun c => c == '\r' || c == '\n'

/-- The hop-by-hop / proxy header names skipped by the `switch k` in
`handleHTTPRequest` (src/portforward.go:322-327).  The Go `switch`
compares with exact, case-sensitive string equality. -/
def hopByHopNames : List String :=
  ["Host", "Connection", "Upgrade", "Keep-Alive",
   "Transfer-Encoding", "TE", "Trailer", "Proxy-Authorization",
   "Proxy-Connection"]

/-- One iteration of the header loop of `handleHTTPRequest`
(src/portforward.go:321-334): a header is skipped (contributes nothing
to the request) when its name is one of the hop-by-hop names (exact
match) or when its name or value contains CR or LF; otherwise the line
`k: v\r\n` is appended. -/
def headerLine (k v : String) : String :=
  if k ∈ hopByHopNames then ""
  else if containsCRLF k || containsCRLF v then ""
  else k ++ ": " ++ v ++ "\r\n"

/-- The whole header loop of `handleHTTPRequest` over a list of inbound
headers (Go iterates a map; the embedding fixes one iteration order). -/
def headerLoop : List (String × String) → String
  | [] => ""
  | (k, v) :: rest => headerLine k v ++ headerLoop rest

/-- Decision predicate distilled from `headerLine`: the header (k, v) is
omitted from the forwarded request. -/
def dropsHeader (k v : String) : Bool :=
  decide (k ∈ hopByHopNames) || containsCRLF k || containsCRLF v

theorem headerLine_eq (k v : String) :
    headerLine k v = if dropsHeader k v then "" else k ++ ": " ++ v ++ "\r\n" := by
  unfold headerLine dropsHeader
  by_cases h : k ∈ hopByHopNames <;> simp [h]

/-! ## Binary tunnel frames (src/portforward.go:259-268) -/

/-- Embeds `parseBinaryFrame`: extracts connection id and payload from a
`[4-byte big-endian id length][id bytes][payload]` frame.  The Go
function returns `("", nil)` on any malformed input; the embedding
returns `([], none)`.  The function is total (no panic on any input). -/
def parseBinaryFrame (data : List Nat) : List Nat × Option (List Nat) :=
  if data.length < 4 then ([], none)
  else
    let idLen := (data.getD 0 0) <<< 24 ||| (data.getD 1 0) <<< 16 |||
                 (data.getD 2 0) <<< 8 ||| data.getD 3 0
    if idLen ≤ 0 ∨ idLen > 256 ∨ 4 + idLen > data.length then ([], none)
    else ((data.drop 4).take idLen, some (data.drop (4 + idLen)))

/-- The 4-byte big-endian header length of a frame (the value the code
names `idLen`). -/
def frameHeaderLen (data : List Nat) : Nat :=
  (data.getD 0 0) <<< 24 ||| (data.getD 1 0) <<< 16 |||
  (data.getD 2 0) <<< 8 ||| data.getD 3 0

/-- Claim C8: `parseBinaryFrame` returns a non-empty connId iff the
buffer has at least 4 bytes and the header length L satisfies
1 ≤ L ≤ 256 and 4+L ≤ len(buf); when non-empty, the connId has length
L and equals buf[4..4+L] and the payload is buf[4+L..]; otherwise the
result is ("", nil).  Totality of the Lean function embeds the no-panic
guarantee. -/
theorem parse_binary_frame_spec (data : List Nat) :
    ((parseBinaryFrame data).1 ≠ [] ↔
      (4 ≤ data.length ∧ 1 ≤ frameHeaderLen data ∧ frameHeaderLen data ≤ 256 ∧
        4 + frameHeaderLen data ≤ data.length)) ∧
    ((parseBinaryFrame data).1 ≠ [] →
      ((parseBinaryFrame data).1.length = frameHeaderLen data ∧
       (parseBinaryFrame data).1 = (data.drop 4).take (frameHeaderLen data) ∧
       (parseBinaryFrame data).2 = some (data.drop (4 + frameHeaderLen data)))) ∧
    ((parseBinaryFrame data).1 = [] → parseBinaryFrame data = ([], none)) := by
  unfold parseBinaryFrame
  by_cases hlen : data.length < 4
  · simp only [hlen, if_true]
    refine ⟨?_, ?_, ?_⟩
    · constructor
      · intro h; exact absurd rfl h
      · rintro ⟨h4, -⟩; omega
    · intro h; exact absurd rfl h
    · intro _; trivial
  · simp only [hlen, if_false]
    set L := (data.getD 0 0) <<< 24 ||| (data.getD 1 0) <<< 16 |||
             (data.getD 2 0) <<< 8 ||| data.getD 3 0 with hL
    have hLdef : frameHeaderLen data = L := rfl
    by_cases hbad : L ≤ 0 ∨ L > 256 ∨ 4 + L > data.length
    · simp only [hbad, if_true]
      refine ⟨?_, ?_, ?_⟩
      · constructor
        · intro h; exact absurd rfl h
        · rintro ⟨-, h1, h2, h3⟩
          rw [hLdef] at h1 h2 h3
          omega
      · intro h; exact absurd rfl h
      · intro _; trivial
    · simp only [hbad, if_false]
      push_neg at hbad
      obtain ⟨hpos, hle, hfit⟩ := hbad
      have hne : ((data.drop 4).take L) ≠ [] := by
        have hlendrop : (data.drop 4).length = data.length - 4 := List.length_drop 4 data
        have : ((data.drop 4).take L).length = min L (data.length - 4) := by
          rw [List.length_take, hlendrop]
        intro hcon
        rw [hcon] at this
        simp at this
        omega
      refine ⟨?_, ?_, ?_⟩
      · constructor
        · intro _
          refine ⟨by omega, by rw [hLdef]; omega, by rw [hLdef]; omega, by rw [hLdef]; omega⟩
        · intro _; exact hne
      · intro _
        refine ⟨?_, by rw [hLdef], by rw [hLdef]⟩
        rw [hLdef, List.length_take, List.length_drop]
        omega
      · intro h; exact absurd h hne

/-- Witness instantiating `parse_binary_frame_spec` on the concrete frame
`[0,0,0,2, 97,98, 99]` (id length 2, id "ab", payload "c"). -/
theorem parse_binary_frame_spec_witness :
    (parseBinaryFrame [0, 0, 0, 2, 97, 98, 99]).1 ≠ [] ∧
    ((parseBinaryFrame [0, 0, 0, 2, 97, 98, 99]).1 ≠ [] ↔
      (4 ≤ ([0, 0, 0, 2, 97, 98, 99] : List Nat).length ∧
        1 ≤ frameHeaderLen [0, 0, 0, 2, 97, 98, 99] ∧
        frameHeaderLen [0, 0, 0, 2, 97, 98, 99] ≤ 256 ∧
        4 + frameHeaderLen [0, 0, 0, 2, 97, 98, 99] ≤
          ([0, 0, 0, 2, 97, 98, 99] : List Nat).length)) :=
  ⟨by decide, (parse_binary_frame_spec [0, 0, 0, 2, 97, 98, 99]).1⟩

/-! ## Claim C3: hop-by-hop header filtering -/

theorem str_data_append (s t : String) : (s ++ t).data = s.data ++ t.data :=
  String.data_append s t

theorem containsCRLF_iff (s : String) :
    containsCRLF s = true ↔ ∃ c ∈ s.data, c = '\r' ∨ c = '\n' := by
  simp [containsCRLF, List.any_eq_true]

theorem headerLine_forward_ne_empty (k v : String) :
    k ++ ": " ++ v ++ "\r\n" ≠ "" := by
  intro h
  have : (k ++ ": " ++ v ++ "\r\n").data = "".data := by rw [h]
  simp only [str_data_append] at this
  have h2 := congrArg List.length this
  simp [String.data] at h2

/-- Claim C3 counterexample: the claim says a lowercase `host: x` header
is dropped (case-insensitive comparison); in the code the `switch k`
filter compares exactly, so the header is forwarded unchanged. -/
theorem hop_filter_keeps_lowercase_host :
    dropsHeader "host" "x" = false ∧
    headerLine "host" "x" = "host: x" ++ "\r\n" ∧
    headerLoop [("host", "x")] = "host: x" ++ "\r\n" := by
  refine ⟨by decide, ?_, ?_⟩ <;> rfl

/-- Claim C3 (amended): a header (name, value) is omitted from the
forwarded request iff the name equals one of Host, Connection, Upgrade,
Keep-Alive, Transfer-Encoding, TE, Trailer, Proxy-Authorization,
Proxy-Connection under exact case-sensitive comparison, or the name or
value contains CR or LF; all other headers are forwarded unchanged as
the line `name: value\r\n`.  In particular `X-Evil: foo\r\nInjected:
yes` is dropped and the exact name `Host` is dropped, but a lowercase
`host` is not. -/
theorem hop_filter_exact_match_spec :
    (∀ k v : String, headerLine k v = "" ↔
      (k ∈ hopByHopNames ∨ (∃ c ∈ k.data, c = '\r' ∨ c = '\n') ∨
        (∃ c ∈ v.data, c = '\r' ∨ c = '\n'))) ∧
    (∀ k v : String,
      ¬ (k ∈ hopByHopNames ∨ (∃ c ∈ k.data, c = '\r' ∨ c = '\n') ∨
          (∃ c ∈ v.data, c = '\r' ∨ c = '\n')) →
      headerLine k v = k ++ ": " ++ v ++ "\r\n") ∧
    headerLine "Host" "x" = "" ∧
    headerLine "X-Evil" "foo\r\nInjected: yes" = "" := by
  have hline : ∀ k v : String, headerLine k v = "" ↔
      (k ∈ hopByHopNames ∨ containsCRLF k = true ∨ containsCRLF v = true) := by
    intro k v
    unfold headerLine
    by_cases h : k ∈ hopByHopNames
    · simp [h]
    · by_cases h2 : (containsCRLF k || containsCRLF v) = true
      · rw [if_neg h, if_pos h2]
        constructor
        · intro _
          rcases Bool.or_eq_true _ _ |>.mp h2 with h3 | h3
          · exact Or.inr (Or.inl h3)
          · exact Or.inr (Or.inr h3)
        · intro _; rfl
      · rw [if_neg h, if_neg h2]
        constructor
        · intro hc; exact absurd hc (headerLine_forward_ne_empty k v)
        · rintro (hc | hc | hc)
          · exact absurd hc h
          · exact absurd (Bool.or_eq_true _ _ |>.mpr (Or.inl hc)) h2
          · exact absurd (Bool.or_eq_true _ _ |>.mpr (Or.inr hc)) h2
  refine ⟨?_, ?_, ?_, ?_⟩
  · intro k v
    rw [hline k v, containsCRLF_iff, containsCRLF_iff]
  · intro k v h
    rw [← containsCRLF_iff, ← containsCRLF_iff] at h
    unfold headerLine
    push_neg at h
    obtain ⟨h1, h2, h3⟩ := h
    simp only [h1, if_false]
    rw [if_neg]
    simp [h2, h3]
  · rfl
  · rw [(hline _ _)]
    right; right
    rw [containsCRLF_iff]
    exact ⟨'\r', by decide, Or.inl rfl⟩

/-- Witness instantiating `hop_filter_exact_match_spec`: the header
`X-Custom: ok` is not a hop-by-hop name and has no CR/LF, and the
theorem yields that it is forwarded unchanged. -/
theorem hop_filter_exact_match_spec_witness :
    headerLine "X-Custom" "ok" = "X-Custom" ++ ": " ++ "ok" ++ "\r\n" :=
  hop_filter_exact_match_spec.2.1 "X-Custom" "ok" (by decide)

/-! ## Transfer size policy (src/sftp_transfer.go) -/

/-- `maxDownloadSize` (src/sftp_transfer.go:28): the 512 MiB ceiling
enforced by the in-memory download path. -/
def maxDownloadSize : Nat := 512 * 1024 * 1024

/-- `transferChunkSize` (src/sftp_transfer.go:24): 64 KiB read/write
chunks. -/
def transferChunkSize : Nat := 64 * 1024

/-- Observable steps of a transfer, in program order. -/
inductive TransferOp where
  | copyIn (n : Nat)
  | create
  | writeChunk (n : Nat)
  | rejectSize (n : Nat)
deriving DecidableEq, Repr

/-- The chunked write loop of `sftpUpload` (src/sftp_transfer.go:57-75):
each iteration writes `min transferChunkSize (total - written)` bytes
until `written = total` (the abort signal is modelled as never set). -/
def uploadWriteOps (written total : Nat) : List TransferOp :=
  if _h : written < total then
    TransferOp.writeChunk (min transferChunkSize (total - written)) ::
      uploadWriteOps (written + min transferChunkSize (total - written)) total
  else []
termination_by total - written
decreasing_by
  have : 0 < min transferChunkSize (total - written) := by
    have : 0 < total - written := by omega
    simp [transferChunkSize]
    omega
  omega

/-- The step trace of `sftpUpload` (src/sftp_transfer.go:35-79): the
function copies the full payload across the boundary (line 43-45), then
creates the remote file (line 48), then runs the write loop.  There is
no size check anywhere in the function. -/
def sftpUploadTrace (total : Nat) : List TransferOp :=
  TransferOp.copyIn total :: TransferOp.create :: uploadWriteOps 0 total

/-- The size guard of `sftpDownload` (src/sftp_transfer.go:99-101):
rejects when the stat size exceeds `maxDownloadSize`, before opening the
file. -/
def sftpDownloadRejects (size : Nat) : Bool :=
  size > maxDownloadSize

theorem uploadWriteOps_writeOnly (written total : Nat) :
    ∀ op ∈ uploadWriteOps written total, ∃ n, op = TransferOp.writeChunk n := by
  induction written, total using uploadWriteOps.induct with
  | case1 written total h ih =>
    rw [uploadWriteOps, dif_pos h]
    intro op hop
    rcases List.mem_cons.mp hop with hop | hop
    · exact ⟨_, hop⟩
    · exact ih op hop
  | case2 written total h =>
    rw [uploadWriteOps, dif_neg h]
    intro op hop
    exact absurd hop (List.not_mem_nil op)

/-- Claim C6: the non-streaming `sftpUpload` has no size-policy check at
all — for every payload size its trace begins with the full boundary
copy and the remote-file creation and contains no size rejection —
while `sftpDownload` does reject the same 512 MiB + 1 size.  This is the
divergence the claim (and the repository's own README and audit finding
H-03) describes. -/
theorem sftp_upload_unbounded_vs_download_capped :
    (∀ total, ∀ op ∈ sftpUploadTrace total, ∀ n, op ≠ TransferOp.rejectSize n) ∧
    (sftpUploadTrace (maxDownloadSize + 1)).take 2 =
      [TransferOp.copyIn (maxDownloadSize + 1), TransferOp.create] ∧
    sftpDownloadRejects (maxDownloadSize + 1) = true ∧
    sftpDownloadRejects maxDownloadSize = false := by
  refine ⟨?_, rfl, by decide, by decide⟩
  intro total op hop n
  rcases List.mem_cons.mp hop with h | h
  · subst h; intro hcon; cases hcon
  rcases List.mem_cons.mp h with h | h
  · subst h; intro hcon; cases hcon
  · obtain ⟨m, hm⟩ := uploadWriteOps_writeOnly 0 total op h
    subst hm; intro hcon; cases hcon

/-- Witness instantiating `sftp_upload_unbounded_vs_download_capped` at
the three-byte upload trace. -/
theorem sftp_upload_unbounded_witness :
    TransferOp.copyIn 3 ∈ sftpUploadTrace 3 ∧
    ∀ n, TransferOp.copyIn 3 ≠ TransferOp.rejectSize n := by
  constructor
  · exact List.mem_cons_self _ _
  · intro n
    exact sftp_upload_unbounded_vs_download_capped.1 3 (TransferOp.copyIn 3)
      (List.mem_cons_self _ _) n

/-! ## Session connect and host-key verification (src/ssh.go) -/

/-- The fields of the JS connect config consulted by `sshConnect` and
`makeHostKeyCallback` (src/ssh.go:57-74 and 414-455).  `keyParses`
abstracts the success of `ssh.ParsePrivateKey` on `keyPEM`;
`agentKeysLoaded` abstracts `globalAgent != nil`. -/
structure ConnectConfig where
  proxyUrl : String
  host : String
  port : Nat
  username : String
  authMethod : String
  password : String
  keyPEM : String
  keyParses : Bool
  agentKeysLoaded : Bool
  hasOnHostKey : Bool
  allowInsecureHostKey : Bool
deriving DecidableEq, Repr

/-- The host-key behaviour a config produces. -/
inductive HostKeyPolicy where
  | insecureAcceptAll
  | delegateToCallback
deriving DecidableEq, Repr

/-- Embeds `makeHostKeyCallback` (src/ssh.go:414-455): when the config
carries no `onHostKey` callable the function logs a warning and returns
`ssh.InsecureIgnoreHostKey()` — it never consults
`allowInsecureHostKey` and never fails; otherwise it delegates to the
callback. -/
def makeHostKeyCallback (cfg : ConnectConfig) : HostKeyPolicy :=
  if cfg.hasOnHostKey then HostKeyPolicy.delegateToCallback
  else HostKeyPolicy.insecureAcceptAll

/-- Embeds `buildAuthMethods` (src/ssh.go:458-488) as a validity check:
password auth needs a non-empty password, key auth a parseable PEM,
agent auth a non-empty keyring; any other method fails. -/
def buildAuthMethodsOk (cfg : ConnectConfig) : Bool :=
  if cfg.authMethod = "password" then cfg.password ≠ ""
  else if cfg.authMethod = "key" then cfg.keyPEM ≠ "" && cfg.keyParses
  else if cfg.authMethod = "agent" then cfg.agentKeysLoaded
  else false

/-- How far `sshConnect` gets before touching the network. -/
inductive ConnectPhase where
  | rejectedBeforeDial
  | dialAttempted
deriving DecidableEq, Repr

/-- Embeds the pre-dial control flow of `sshConnect`
(src/ssh.go:57-161): validate required fields (line 66), build auth
methods (line 71), then immediately dial the WebSocket (line 114 for a
jump host, line 157 otherwise).  No host-key precondition is checked
before the socket is opened; `makeHostKeyCallback` is only invoked
after the transport is up (line 167). -/
def sshConnectPhase (cfg : ConnectConfig) : ConnectPhase :=
  if cfg.proxyUrl = "" ∨ cfg.host = "" ∨ cfg.username = "" then
    ConnectPhase.rejectedBeforeDial
  else if ¬ buildAuthMethodsOk cfg then ConnectPhase.rejectedBeforeDial
  else ConnectPhase.dialAttempted

/-- Claim C1 (code bug): for a well-formed connect config with no
`onHostKey` callable and no `allowInsecureHostKey` opt-in, `sshConnect`
proceeds to open the socket and installs the accept-all host-key
callback, instead of failing with an explicit error before the socket
opens as the claim (and the repository's own test
`TestHostKeyCallback_NoCallbackRejectsKey` and README) require. -/
theorem hostkey_missing_callback_accepts_all :
    sshConnectPhase
      { proxyUrl := "wss://proxy.example/relay", host := "h", port := 22,
        username := "u", authMethod := "password", password := "pw",
        keyPEM := "", keyParses := false, agentKeysLoaded := false,
        hasOnHostKey := false, allowInsecureHostKey := false } =
      ConnectPhase.dialAttempted ∧
    makeHostKeyCallback
      { proxyUrl := "wss://proxy.example/relay", host := "h", port := 22,
        username := "u", authMethod := "password", password := "pw",
        keyPEM := "", keyParses := false, agentKeysLoaded := false,
        hasOnHostKey := false, allowInsecureHostKey := false } =
      HostKeyPolicy.insecureAcceptAll ∧
    (∀ cfg : ConnectConfig, cfg.hasOnHostKey = false →
      makeHostKeyCallback cfg = HostKeyPolicy.insecureAcceptAll) := by
  refine ⟨by decide, by decide, ?_⟩
  intro cfg h
  unfold makeHostKeyCallback
  rw [h]
  rfl

/-! ## Streaming download registry (src/sftp_transfer.go:150-456) -/

/-- Embeds `streamState` (src/sftp_transfer.go:155-164).  The struct
has no pull-token field; `remaining` models the unread bytes of the
remote reader, `fileClosed` whether `file.Close()` has run, and
`doneSignaled` whether the single-shot `done` channel was closed. -/
structure StreamState where
  sftpID : String
  remotePath : String
  totalSize : Nat
  progress : Nat
  remaining : List Nat
  fileClosed : Bool
  doneSignaled : Bool
deriving DecidableEq, Repr

/-- The module-scoped `activeStreams` registry as an association list. -/
def StreamRegistry : Type := List (String × StreamState)

def streamFind (reg : StreamRegistry) (id : String) : Option StreamState :=
  match reg with
  | [] => none
  | (k, st) :: rest => if k = id then some st else streamFind rest id

def streamUpdate (reg : StreamRegistry) (id : String) (st : StreamState) :
    StreamRegistry :=
  match reg with
  | [] => []
  | (k, old) :: rest =>
    if k = id then (k, st) :: rest else (k, old) :: streamUpdate rest id st

def streamDelete (reg : StreamRegistry) (id : String) : StreamRegistry :=
  match reg with
  | [] => []
  | (k, st) :: rest =>
    if k = id then rest else (k, st) :: streamDelete rest id

/-- Result shape of `_streamPull`. -/
structure PullResult where
  data : Option (List Nat)
  done : Bool
deriving DecidableEq, Repr

/-- Embeds `streamPull` (src/sftp_transfer.go:416-444).  The Go
function takes ONLY the stream id — there is no token parameter and no
token comparison.  Unknown id yields `{data: null, done: true}`; a
non-empty read returns the chunk; an empty read closes the reader and
signals done (the entry stays registered, matching the code). -/
def streamPull (reg : StreamRegistry) (streamID : String) :
    StreamRegistry × PullResult :=
  match streamFind reg streamID with
  | none => (reg, { data := none, done := true })
  | some st =>
    match st.remaining with
    | [] =>
      (streamUpdate reg streamID { st with fileClosed := true, doneSignaled := true },
       { data := none, done := true })
    | chunkFirst :: chunkRest =>
      let chunk := (chunkFirst :: chunkRest).take transferChunkSize
      let rest := (chunkFirst :: chunkRest).drop transferChunkSize
      (streamUpdate reg streamID
        { st with remaining := rest, progress := st.progress + chunk.length },
       { data := some chunk, done := false })

/-- Embeds `streamCancel` (src/sftp_transfer.go:448-456): again only the
stream id is consulted — `LoadAndDelete` removes the entry, then the
reader is closed and done signalled unconditionally.  The second
component is the (closed) state object after cancellation, `none` when
the id was not registered (the no-op path). -/
def streamCancel (reg : StreamRegistry) (streamID : String) :
    StreamRegistry × Option StreamState :=
  match streamFind reg streamID with
  | none => (reg, none)
  | some st =>
    (streamDelete reg streamID,
     some { st with fileClosed := true, doneSignaled := true })

/-- Claim C2 (code bug): the page-side bridge and the repository's own
tests present pull/cancel as token-verified, but the `streamPull` and
`streamCancel` in src/sftp_transfer.go accept the stream id alone: a
caller that knows only the id pulls data and cancels — closing the
reader, signalling done, and removing the registry entry — with no
token ever checked (the state has no token field to check against).
Repeated cancel is a no-op, and the unknown-id pull yields
`{data: null, done: true}`. -/
theorem stream_cancel_ignores_token :
    (streamPull
        [("s1", { sftpID := "f1", remotePath := "/r", totalSize := 3,
                  progress := 0, remaining := [1, 2, 3],
                  fileClosed := false, doneSignaled := false })] "s1").2 =
      { data := some [1, 2, 3], done := false } ∧
    (streamCancel
        [("s1", { sftpID := "f1", remotePath := "/r", totalSize := 3,
                  progress := 0, remaining := [1, 2, 3],
                  fileClosed := false, doneSignaled := false })] "s1").1 = [] ∧
    (streamCancel
        [("s1", { sftpID := "f1", remotePath := "/r", totalSize := 3,
                  progress := 0, remaining := [1, 2, 3],
                  fileClosed := false, doneSignaled := false })] "s1").2 =
      some { sftpID := "f1", remotePath := "/r", totalSize := 3,
             progress := 0, remaining := [1, 2, 3],
             fileClosed := true, doneSignaled := true } ∧
    streamCancel ([] : StreamRegistry) "s1" = ([], none) ∧
    (streamPull ([] : StreamRegistry) "s1").2 = { data := none, done := true } := by
  refine ⟨?_, ?_, ?_, ?_, ?_⟩ <;> rfl

/-! ## Go `path.Clean` / `path.Join` (stdlib `path` package)

The hardened sftp.go (the current version, shipped alongside the
Makefile) renders FileInfo paths with `pathpkg.Join(parentPath,
info.Name())` and builds child paths for recursive removal the same
way.  `path.Join` concatenates the non-empty elements with "/" and
applies `path.Clean`, whose documented lexical rules are: eliminate
each `.` element and each empty element, eliminate each inner `..`
together with the non-`..` element that precedes it, and eliminate
`..` elements that begin a rooted path; the empty result becomes ".".
The embedding processes slash-separated segments with a stack. -/

/-- Slash-segmentation of a character list (the segment structure that
`path.Clean` walks).  `splitSeg "a/b"` = `[['a'], ['b']]`,
`splitSeg "/a"` = `[[], ['a']]`, `splitSeg ""` = `[[]]`. -/
def splitSeg : List Char → List (List Char)
  | [] => [[]]
  | c :: cs =>
    if c = '/' then [] :: splitSeg cs
    else (c :: (splitSeg cs).headI) :: (splitSeg cs).tail

/-- One `path.Clean` step on the component stack (top of stack at the
head).  Empty and `.` segments are skipped; `..` pops the most recent
component when one is available (for a rooted path `..` at the root is
dropped; for a relative path leading `..`s accumulate); any other
segment is pushed. -/
def cleanStep (rooted : Bool) (stack : List (List Char)) (seg : List Char) :
    List (List Char) :=
  if seg = [] ∨ seg = ['.'] then stack
  else if seg = ['.', '.'] then
    if stack = [] then (if rooted then [] else [seg])
    else if ¬ rooted ∧ stack.headI = ['.', '.'] then seg :: stack
    else stack.tail
  else seg :: stack

def cleanStack (rooted : Bool) (segs : List (List Char)) : List (List Char) :=
  segs.foldl (cleanStep rooted) []

/-- Render the processed component stack back to a path. -/
def renderClean (rooted : Bool) (stack : List (List Char)) : List Char :=
  let comps := stack.reverse
  if rooted then '/' :: List.intercalate ['/'] comps
  else if comps = [] then ['.'] else List.intercalate ['/'] comps

/-- Embeds Go `path.Clean`. -/
def goPathClean (p : String) : String :=
  ⟨renderClean (p.data.head? = some '/')
    (cleanStack (p.data.head? = some '/') (splitSeg p.data))⟩

/-- Embeds Go `path.Join` restricted to two elements, as used by
`fileInfoToJS` and `removeRecursive`: join the non-empty elements with
"/" and clean; all-empty input yields "". -/
def goPathJoin (a b : String) : String :=
  if a ≠ "" then goPathClean ⟨a.data ++ '/' :: b.data⟩
  else if b ≠ "" then goPathClean b
  else ""

/-- Embeds the path rendering of `fileInfoToJS` in the hardened sftp.go
(src/Makefile, sftp.go section, lines 320-335): the rendered `path` is
`path.Join(parentPath, name)` with "/" prepended when the join result
does not already start with "/". -/
def fileInfoPath (parentPath name : String) : String :=
  if (goPathJoin parentPath name).data.head? = some '/' then
    goPathJoin parentPath name
  else ⟨'/' :: (goPathJoin parentPath name).data⟩

theorem splitSeg_cons_slash (cs : List Char) :
    splitSeg ('/' :: cs) = [] :: splitSeg cs := by
  simp [splitSeg]

theorem splitSeg_cons_ne {c : Char} (cs : List Char) (hc : c ≠ '/') :
    splitSeg (c :: cs) = (c :: (splitSeg cs).headI) :: (splitSeg cs).tail := by
  rw [splitSeg, if_neg hc]

theorem splitSeg_ne_nil (cs : List Char) : splitSeg cs ≠ [] := by
  cases cs with
  | nil => simp [splitSeg]
  | cons c rest =>
    by_cases h : c = '/'
    · subst h; rw [splitSeg_cons_slash]; simp
    · rw [splitSeg_cons_ne rest h]; simp

theorem splitSeg_noslash (cs : List Char) : ∀ l ∈ splitSeg cs, '/' ∉ l := by
  induction cs with
  | nil => intro l hl; simp [splitSeg] at hl; simp [hl]
  | cons c rest ih =>
    intro l hl
    by_cases h : c = '/'
    · subst h
      rw [splitSeg_cons_slash] at hl
      rcases List.mem_cons.mp hl with hl | hl
      · simp [hl]
      · exact ih l hl
    · rw [splitSeg_cons_ne rest h] at hl
      cases hsp : splitSeg rest with
      | nil => exact absurd hsp (splitSeg_ne_nil rest)
      | cons s srest =>
        rw [hsp] at hl
        simp only [List.headI, List.tail] at hl
        rcases List.mem_cons.mp hl with hl | hl
        · subst hl
          intro hmem
          rcases List.mem_cons.mp hmem with hc2 | hc2
          · exact h hc2.symm
          · exact ih s (hsp ▸ List.mem_cons_self s srest) hc2
        · exact ih l (hsp ▸ List.mem_cons_of_mem s hl)

theorem splitSeg_single (x : List Char) (h : '/' ∉ x) : splitSeg x = [x] := by
  induction x with
  | nil => rfl
  | cons c rest ih =>
    have hc : c ≠ '/' := fun hcon => h (hcon ▸ List.mem_cons_self c rest)
    have hr : '/' ∉ rest := fun hcon => h (List.mem_cons_of_mem c hcon)
    rw [splitSeg_cons_ne rest hc, ih hr]
    rfl

theorem splitSeg_append (x r : List Char) (h : '/' ∉ x) :
    splitSeg (x ++ '/' :: r) = x :: splitSeg r := by
  induction x with
  | nil => simp [splitSeg_cons_slash]
  | cons c rest ih =>
    have hc : c ≠ '/' := fun hcon => h (hcon ▸ List.mem_cons_self c rest)
    have hr : '/' ∉ rest := fun hcon => h (List.mem_cons_of_mem c hcon)
    show splitSeg (c :: (rest ++ '/' :: r)) = (c :: rest) :: splitSeg r
    rw [splitSeg_cons_ne _ hc, ih hr]
    rfl

theorem intercalate_cons_cons (s x y : List Char) (t : List (List Char)) :
    List.intercalate s (x :: y :: t) = x ++ (s ++ List.intercalate s (y :: t)) := rfl

theorem intercalate_splitSeg (comps : List (List Char))
    (hok : ∀ l ∈ comps, '/' ∉ l) (hne : comps ≠ []) :
    splitSeg (List.intercalate ['/'] comps) = comps := by
  induction comps with
  | nil => exact absurd rfl hne
  | cons x rest ih =>
    cases rest with
    | nil =>
      have : List.intercalate ['/'] [x] = x := by
        simp [List.intercalate, List.intersperse]
      rw [this, splitSeg_single x (hok x (List.mem_cons_self x []))]
    | cons y t =>
      rw [intercalate_cons_cons]
      have hx : '/' ∉ x := hok x (List.mem_cons_self _ _)
      have hsep : (['/'] ++ List.intercalate ['/'] (y :: t)) =
          '/' :: List.intercalate ['/'] (y :: t) := rfl
      rw [hsep, splitSeg_append x _ hx,
        ih (fun l hl => hok l (List.mem_cons_of_mem x hl)) (by simp)]

theorem cleanStack_ok : ∀ (segs stack : List (List Char)),
    (∀ l ∈ segs, '/' ∉ l) →
    (∀ l ∈ stack, l ≠ [] ∧ l ≠ ['.', '.'] ∧ '/' ∉ l) →
    ∀ l ∈ List.foldl (cleanStep true) stack segs,
      l ≠ [] ∧ l ≠ ['.', '.'] ∧ '/' ∉ l := by
  intro segs
  induction segs with
  | nil => intro stack _ hstack; exact hstack
  | cons seg rest ih =>
    intro stack hsegs hstack
    rw [List.foldl_cons]
    refine ih (cleanStep true stack seg)
      (fun l hl => hsegs l (List.mem_cons_of_mem seg hl)) ?_
    intro l hl
    unfold cleanStep at hl
    by_cases h1 : seg = [] ∨ seg = ['.']
    · rw [if_pos h1] at hl; exact hstack l hl
    · rw [if_neg h1] at hl
      by_cases h2 : seg = ['.', '.']
      · rw [if_pos h2] at hl
        by_cases h3 : stack = []
        · rw [if_pos h3, if_pos rfl] at hl
          simp at hl
        · rw [if_neg h3, if_neg (by simp)] at hl
          exact hstack l (List.mem_of_mem_tail hl)
      · rw [if_neg h2] at hl
        rcases List.mem_cons.mp hl with hl | hl
        · subst hl
          push_neg at h1
          exact ⟨h1.1, h2, hsegs l (List.mem_cons_self _ _)⟩
        · exact hstack l hl

theorem goPathClean_rooted (p : String) (h : p.data.head? = some '/') :
    (goPathClean p).data =
      '/' :: List.intercalate ['/'] (cleanStack true (splitSeg p.data)).reverse := by
  show renderClean (p.data.head? = some '/')
      (cleanStack (p.data.head? = some '/') (splitSeg p.data)) = _
  have hd : decide (p.data.head? = some '/') = true := decide_eq_true h
  show renderClean (decide (p.data.head? = some '/'))
      (cleanStack (decide (p.data.head? = some '/')) (splitSeg p.data)) = _
  rw [hd]
  rfl

theorem rooted_clean_no_dotdot (p : String) (h : p.data.head? = some '/') :
    ['.', '.'] ∉ splitSeg (goPathClean p).data := by
  rw [goPathClean_rooted p h]
  have hok : ∀ l ∈ (cleanStack true (splitSeg p.data)).reverse,
      l ≠ [] ∧ l ≠ ['.', '.'] ∧ '/' ∉ l := by
    intro l hl
    rw [List.mem_reverse] at hl
    exact cleanStack_ok (splitSeg p.data) []
      (fun l hl => splitSeg_noslash p.data l hl) (by simp) l hl
  set comps := (cleanStack true (splitSeg p.data)).reverse with hcomps
  rcases eq_or_ne comps [] with hc | hc
  · rw [hc]
    decide
  · have hsplit : splitSeg ('/' :: List.intercalate ['/'] comps) =
        [] :: splitSeg (List.intercalate ['/'] comps) := rfl
    rw [hsplit, intercalate_splitSeg comps (fun l hl => (hok l hl).2.2) hc]
    intro hmem
    rcases List.mem_cons.mp hmem with hm | hm
    · simp at hm
    · exact (hok _ hm).2.1 rfl

/-- Claim C5 counterexample: for a relative parent path the rendered
FileInfo path can retain a `..` traversal that came from the entry
name: `fileInfoToJS("a", {name: "../.."})` renders `"/.."`, whose
segments still contain `..`.  (Non-strict mode passes relative parent
paths through `validateSFTPPath` unchanged, so such parents reach
`fileInfoToJS`.) -/
theorem file_info_path_relative_parent_keeps_dotdot :
    fileInfoPath "a" "../.." = "/.." ∧
    ['.', '.'] ∈ splitSeg (fileInfoPath "a" "../..").data := by
  constructor
  · decide
  · decide

/-- Claim C5 (amended): the rendered FileInfo path is
`path.Join(parent, name)` with "/" prepended when missing, so it always
begins with '/'; and whenever the parent path itself begins with '/'
(every path in strict mode, and every absolute listing), any `..`
traversal in the entry name is normalized away — no `..` segment
survives into the rendered path.  For a relative parent a leading `..`
of the cleaned join can survive (see the counterexample). -/
theorem file_info_path_absolute_normalizes :
    (∀ parent name : String, (fileInfoPath parent name).data.head? = some '/') ∧
    (∀ parent name : String, parent.data.head? = some '/' →
      ['.', '.'] ∉ splitSeg (fileInfoPath parent name).data) ∧
    fileInfoPath "/base" "../tricky" = "/tricky" := by
  refine ⟨?_, ?_, by decide⟩
  · intro parent name
    unfold fileInfoPath
    by_cases h : (goPathJoin parent name).data.head? = some '/'
    · rw [if_pos h]; exact h
    · rw [if_neg h]; rfl
  · intro parent name h
    have hne : parent ≠ "" := by
      intro hc
      rw [hc] at h
      simp [String.data] at h
    have hjoin : goPathJoin parent name =
        goPathClean ⟨parent.data ++ '/' :: name.data⟩ := by
      unfold goPathJoin
      rw [if_pos hne]
    obtain ⟨c, t, hct⟩ : ∃ c t, parent.data = c :: t := by
      cases hp : parent.data with
      | nil => rw [hp] at h; simp at h
      | cons c t => exact ⟨c, t, rfl⟩
    have hc : c = '/' := by rw [hct] at h; simpa using h
    have hhead : (⟨parent.data ++ '/' :: name.data⟩ : String).data.head? =
        some '/' := by
      show (parent.data ++ '/' :: name.data).head? = some '/'
      rw [hct, hc]
      rfl
    have hcleanhead :
        (goPathClean ⟨parent.data ++ '/' :: name.data⟩).data.head? = some '/' := by
      rw [goPathClean_rooted _ hhead]
      rfl
    unfold fileInfoPath
    rw [hjoin, if_pos hcleanhead]
    exact rooted_clean_no_dotdot _ hhead

/-- Witness instantiating `file_info_path_absolute_normalizes` at the
absolute parent `/base` with entry name `../tricky`. -/
theorem file_info_path_absolute_normalizes_witness :
    ("/base" : String).data.head? = some '/' ∧
    ['.', '.'] ∉ splitSeg (fileInfoPath "/base" "../tricky").data :=
  ⟨by decide, file_info_path_absolute_normalizes.2.1 "/base" "../tricky" (by decide)⟩

/-! ## Recursive SFTP removal (hardened sftp.go, src/Makefile lines 196-226) -/

/-- A remote file-system subtree as `Lstat` reports it: `Lstat` does not
follow links, so a symlink node carries its (unfollowed) target; `file`
covers every non-directory non-symlink mode (the `!info.IsDir()`
branch); a directory carries its `ReadDir` listing in order. -/
inductive FsEntry where
  | file
  | symlink (target : String)
  | dir (children : List (String × FsEntry))
deriving Repr

/-- The remote operations `removeRecursive` issues: `client.Remove` and
`client.RemoveDirectory`. -/
inductive FsOp where
  | remove (p : String)
  | rmdir (p : String)
deriving Repr, DecidableEq

def opPath : FsOp → String
  | .remove p => p
  | .rmdir p => p

mutual
/-- Embeds `removeRecursive` (src/Makefile, sftp.go section, lines
198-226): `Lstat` the path; a symlink is removed directly (the link
itself, never its target); any other non-directory is removed; a
directory has its `ReadDir` children removed recursively (child paths
built with `path.Join`) and is then removed with `RemoveDirectory`.
The embedding returns the list of remote operations in program order
(the all-success path; any error aborts the walk early in Go). -/
def removeRecursive (p : String) : FsEntry → List FsOp
  | .file => [FsOp.remove p]
  | .symlink _ => [FsOp.remove p]
  | .dir ch => removeChildren p ch ++ [FsOp.rmdir p]

def removeChildren (p : String) : List (String × FsEntry) → List FsOp
  | [] => []
  | (n, e) :: rest => removeRecursive (goPathJoin p n) e ++ removeChildren p rest
end

mutual
/-- Rewrites every symlink target in a subtree (used to state that the
removal walk is independent of symlink targets). -/
def retargetEntry (f : String → String) : FsEntry → FsEntry
  | .file => .file
  | .symlink t => .symlink (f t)
  | .dir ch => .dir (retargetChildren f ch)

def retargetChildren (f : String → String) :
    List (String × FsEntry) → List (String × FsEntry)
  | [] => []
  | (n, e) :: rest => (n, retargetEntry f e) :: retargetChildren f rest
end

mutual
theorem removeRecursive_retarget (f : String → String) (p : String) :
    (e : FsEntry) → removeRecursive p (retargetEntry f e) = removeRecursive p e
  | .file => rfl
  | .symlink _ => rfl
  | .dir ch => by
    simp only [retargetEntry, removeRecursive]
    rw [removeChildren_retarget f p ch]

theorem removeChildren_retarget (f : String → String) (p : String) :
    (ch : List (String × FsEntry)) →
      removeChildren p (retargetChildren f ch) = removeChildren p ch
  | [] => rfl
  | (n, e) :: rest => by
    simp only [retargetChildren, removeChildren]
    rw [removeRecursive_retarget f (goPathJoin p n) e,
      removeChildren_retarget f p rest]
end

/-- The S2 scenario layout: `/a` contains `link → /etc`, `file`, and
`sub/child`. -/
def demoLayout : FsEntry :=
  .dir [("link", .symlink "/etc"), ("file", .file),
        ("sub", .dir [("child", .file)])]

/-- Claim C4: recursive removal types entries via lstat; symlinks and
plain files are deleted directly (the link itself, never its target),
directories are descended and emptied before being removed, and the
walk never follows a symlink — the emitted operations are invariant
under rewriting every symlink target, and on the S2 layout exactly
`/a/link`, `/a/file`, `/a/sub/child`, `/a/sub`, `/a` are removed in
that order, never touching `/etc`. -/
theorem remove_recursive_never_follows_symlinks :
    (∀ p target : String,
      removeRecursive p (FsEntry.symlink target) = [FsOp.remove p]) ∧
    (∀ p : String, removeRecursive p FsEntry.file = [FsOp.remove p]) ∧
    (∀ (f : String → String) (p : String) (e : FsEntry),
      removeRecursive p (retargetEntry f e) = removeRecursive p e) ∧
    (∀ (p : String) (ch : List (String × FsEntry)),
      (removeRecursive p (FsEntry.dir ch)).getLast? = some (FsOp.rmdir p)) ∧
    removeRecursive "/a" demoLayout =
      [FsOp.remove "/a/link", FsOp.remove "/a/file",
       FsOp.remove "/a/sub/child", FsOp.rmdir "/a/sub", FsOp.rmdir "/a"] ∧
    (∀ op ∈ removeRecursive "/a" demoLayout, opPath op ≠ "/etc") := by
  have hdemo : removeRecursive "/a" demoLayout =
      [FsOp.remove "/a/link", FsOp.remove "/a/file",
       FsOp.remove "/a/sub/child", FsOp.rmdir "/a/sub", FsOp.rmdir "/a"] := by
    have h1 : goPathJoin "/a" "link" = "/a/link" := by decide
    have h2 : goPathJoin "/a" "file" = "/a/file" := by decide
    have h3 : goPathJoin "/a" "sub" = "/a/sub" := by decide
    have h4 : goPathJoin "/a/sub" "child" = "/a/sub/child" := by decide
    simp only [demoLayout, removeRecursive, removeChildren, h1, h2, h3, h4]
    rfl
  refine ⟨fun p t => rfl, fun p => rfl, removeRecursive_retarget, ?_, hdemo, ?_⟩
  · intro p ch
    simp only [removeRecursive]
    exact List.getLast?_concat _
  · intro op hop
    rw [hdemo] at hop
    fin_cases hop <;> decide

/-- Witness instantiating `remove_recursive_never_follows_symlinks`: a
symlink to `/etc` is removed as a single `Remove` of the link path, and
retargeting it to `/danger` leaves the operations unchanged. -/
theorem remove_recursive_never_follows_symlinks_witness :
    removeRecursive "/a/link" (FsEntry.symlink "/etc") = [FsOp.remove "/a/link"] ∧
    removeRecursive "/a/link"
        (retargetEntry (fun _ => "/danger") (FsEntry.symlink "/etc")) =
      removeRecursive "/a/link" (FsEntry.symlink "/etc") :=
  ⟨remove_recursive_never_follows_symlinks.1 "/a/link" "/etc",
   remove_recursive_never_follows_symlinks.2.2.1
     (fun _ => "/danger") "/a/link" (FsEntry.symlink "/etc")⟩

/-! ## WebSocket stream adapter (transport.go, src/unnamed/part_009) -/

/-- `wsMaxMessageSize` (transport.go:31): 8 MiB cap on one incoming
frame. -/
def wsMaxMessageSize : Nat := 8 * 1024 * 1024

/-- `wsReadChanSize` (transport.go:23): capacity of the receive
channel. -/
def wsReadChanSize : Nat := 4096

/-- The sticky error values of the adapter (transport.go:34-41). -/
inductive WSErr where
  | dialFailed
  | wsClosed
  | frameTooLarge
  | backpressure
deriving DecidableEq, Repr

/-- The shared state of a `wsConn` observable from its callbacks and
`Read` (transport.go:46-66): the sticky error, the cancellation flag of
its context, the browser socket's readyState (0 CONNECTING, 1 OPEN, 2
CLOSING, 3 CLOSED), the queued messages of `readCh`, and the leftover
buffer `buf`. -/
structure WSConnState where
  err : Option WSErr
  cancelled : Bool
  sockReadyState : Nat
  readCh : List (List Nat)
  buf : List Nat
deriving DecidableEq, Repr

/-- The `if c.err == nil` guard used by every error write
(transport.go:130-134 etc.): the first error sticks. -/
def setErrOnce (st : WSConnState) (e : WSErr) : WSConnState :=
  if st.err = none then { st with err := some e } else st

/-- `ws.close()` guarded by readyState CONNECTING/OPEN
(transport.go:136-139): the socket leaves the open states. -/
def closeSocketIfOpen (st : WSConnState) : WSConnState :=
  if st.sockReadyState = 0 ∨ st.sockReadyState = 1 then
    { st with sockReadyState := 2 }
  else st

/-- Embeds the `onMessage` handler (transport.go:123-163).  An incoming
frame larger than `wsMaxMessageSize` sets the sticky frame-too-large
error, cancels the context, closes the socket, and returns before the
frame is copied or enqueued.  Otherwise the frame is enqueued when the
channel has room; a full channel with a live context is backpressure
overflow (sticky error, cancel, close); Go's `select` picks among ready
cases nondeterministically — the embedding fixes the enqueue-first
order, which only affects the in-bounds path. -/
def onMessage (st : WSConnState) (frame : List Nat) : WSConnState :=
  if frame.length > wsMaxMessageSize then
    closeSocketIfOpen { setErrOnce st WSErr.frameTooLarge with cancelled := true }
  else if st.readCh.length < wsReadChanSize then
    { st with readCh := st.readCh ++ [frame] }
  else if st.cancelled then st
  else closeSocketIfOpen { setErrOnce st WSErr.backpressure with cancelled := true }

/-- Outcome of one `Read` call. -/
inductive ReadResult where
  | bytes (data : List Nat)
  | eof
  | fail (e : WSErr)
  | wouldBlock
deriving DecidableEq, Repr

/-- Embeds `Read` (transport.go:188-242) for a destination at least as
large as any single message (the greedy multi-message coalescing only
merges further queued messages and does not affect the error path):
with a sticky error set, leftover buffered bytes are drained first and
then the error is returned; otherwise leftover bytes, then the next
queued message, are served; with an empty queue a cancelled context
yields EOF (`ctxErr`, transport.go:335-340) and a live one blocks. -/
def readStep (st : WSConnState) : WSConnState × ReadResult :=
  match st.err with
  | some e =>
    if st.buf ≠ [] then ({ st with buf := [] }, ReadResult.bytes st.buf)
    else (st, ReadResult.fail e)
  | none =>
    if st.buf ≠ [] then ({ st with buf := [] }, ReadResult.bytes st.buf)
    else
      match st.readCh with
      | d :: rest => ({ st with readCh := rest }, ReadResult.bytes d)
      | [] => if st.cancelled then (st, ReadResult.eof) else (st, ReadResult.wouldBlock)

/-- Claim C7: an incoming WebSocket message longer than the 8 MiB frame
cap sets a sticky frame-too-large error (a previously recorded error is
preserved), cancels the stream, closes the socket, and is never
enqueued onto the receive channel; a subsequent read (with no leftover
buffered bytes) fails with that sticky error rather than silently
dropping or truncating the frame. -/
theorem oversized_frame_rejected (st : WSConnState) (frame : List Nat)
    (hbig : frame.length > wsMaxMessageSize) :
    (onMessage st frame).readCh = st.readCh ∧
    (onMessage st frame).cancelled = true ∧
    (onMessage st frame).err = some ((st.err).getD WSErr.frameTooLarge) ∧
    (st.err = none → (onMessage st frame).err = some WSErr.frameTooLarge) ∧
    (∀ e, st.err = some e → (onMessage st frame).err = some e) ∧
    ¬ ((onMessage st frame).sockReadyState = 0 ∨
       (onMessage st frame).sockReadyState = 1) ∧
    (st.buf = [] →
      (readStep (onMessage st frame)).2 =
        ReadResult.fail ((st.err).getD WSErr.frameTooLarge)) := by
  unfold onMessage
  rw [if_pos hbig]
  unfold setErrOnce closeSocketIfOpen
  by_cases herr : st.err = none
  · rw [if_pos herr]
    by_cases hsock : st.sockReadyState = 0 ∨ st.sockReadyState = 1
    · rw [if_pos hsock]
      refine ⟨rfl, rfl, by rw [herr]; rfl, fun _ => rfl, ?_, by simp, ?_⟩
      · intro e he; rw [herr] at he; cases he
      · intro hbuf
        rw [herr]
        unfold readStep
        simp [hbuf]
    · rw [if_neg hsock]
      push_neg at hsock
      refine ⟨rfl, rfl, by rw [herr]; rfl, fun _ => rfl, ?_, by simpa using hsock, ?_⟩
      · intro e he; rw [herr] at he; cases he
      · intro hbuf
        rw [herr]
        unfold readStep
        simp [hbuf]
  · rw [if_neg herr]
    obtain ⟨e0, he0⟩ := Option.ne_none_iff_exists'.mp herr
    by_cases hsock : st.sockReadyState = 0 ∨ st.sockReadyState = 1
    · rw [if_pos hsock]
      refine ⟨rfl, rfl, by rw [he0]; rfl, ?_, ?_, by simp, ?_⟩
      · intro hc; rw [hc] at he0; cases he0
      · intro e he; rw [he0] at he; rw [he0]; injection he with he; rw [he]
      · intro hbuf
        rw [he0]
        unfold readStep
        simp [hbuf, he0]
    · rw [if_neg hsock]
      push_neg at hsock
      refine ⟨rfl, rfl, by rw [he0]; rfl, ?_, ?_, by simpa using hsock, ?_⟩
      · intro hc; rw [hc] at he0; cases he0
      · intro e he; rw [he0] at he; rw [he0]; injection he with he; rw [he]
      · intro hbuf
        rw [he0]
        unfold readStep
        simp [hbuf, he0]

/-- Witness instantiating `oversized_frame_rejected` on a fresh open
connection receiving a frame of 8 MiB + 1 bytes. -/
theorem oversized_frame_rejected_witness :
    (List.replicate (wsMaxMessageSize + 1) 0).length > wsMaxMessageSize ∧
    (onMessage
        { err := none, cancelled := false, sockReadyState := 1,
          readCh := [], buf := [] }
        (List.replicate (wsMaxMessageSize + 1) 0)).err =
      some WSErr.frameTooLarge := by
  have hlen : (List.replicate (wsMaxMessageSize + 1) 0).length > wsMaxMessageSize := by
    rw [List.length_replicate]
    omega
  refine ⟨hlen, ?_⟩
  exact (oversized_frame_rejected
    { err := none, cancelled := false, sockReadyState := 1,
      readCh := [], buf := [] }
    (List.replicate (wsMaxMessageSize + 1) 0) hlen).2.2.2.1 rfl

/-! ## Session teardown cascade (src/ssh.go:357-408) -/

/-- The per-session-object state relevant to `close`: the `sync.Once`
latch, the cancellation of the session context, and how many times the
host's `onClose` callback has been invoked. -/
structure SessObj where
  onceUsed : Bool
  cancelled : Bool
  onCloseCalls : Nat
deriving DecidableEq, Repr

/-- Per-forward state relevant to the cascade: the owning session id,
the `cleanupOnce` latch, and the forward-context / tunnel-connection
teardown effects. -/
structure FwdObj where
  sessionID : String
  cleaned : Bool
  fwdCancelled : Bool
  connClosed : Bool
deriving DecidableEq, Repr

/-- An entry of the SFTP registry: the SFTP client id and its owning
session id. -/
structure SftpEnt where
  sftpID : String
  sessionID : String
deriving DecidableEq, Repr

/-- The process-wide state touched by `session.close`: session objects
and the session registry, the SFTP registry plus the set of closed SFTP
clients, and the forward objects plus the forward registry. -/
structure CoreState where
  sessObjs : String → SessObj
  sessReg : List String
  sftpReg : List SftpEnt
  sftpClosed : List String
  fwdObjs : String → FwdObj
  fwdReg : List String

/-- Embeds `portForward.cleanup` (src/portforward.go:512-520): under the
`cleanupOnce` latch, cancel the forward context, close the tunnel
connection, and delete the forward from the registry; a second call is
a no-op. -/
def fwdCleanup (st : CoreState) (fid : String) : CoreState :=
  if (st.fwdObjs fid).cleaned then st
  else
    { st with
      fwdObjs := fun i =>
        if i = fid then
          { st.fwdObjs fid with
            cleaned := true,
            fwdCancelled := true,
            connClosed := true }
        else st.fwdObjs i,
      fwdReg := st.fwdReg.filter (fun i => ¬ i = fid) }

/-- Phase 1 of `session.close`: take the `closeOnce` latch and cancel
the session context (src/ssh.go:358-359). -/
def closeMark (st : CoreState) (sid : String) : CoreState :=
  { st with
    sessObjs := fun i =>
      if i = sid then
        { st.sessObjs sid with onceUsed := true, cancelled := true }
      else st.sessObjs i }

/-- Phase 2: close and delete every SFTP client whose session id
matches (src/ssh.go:362-369). -/
def closeSftp (st : CoreState) (sid : String) : CoreState :=
  { st with
    sftpClosed := st.sftpClosed ++
      (st.sftpReg.filter (fun e => e.sessionID = sid)).map (·.sftpID),
    sftpReg := st.sftpReg.filter (fun e => ¬ e.sessionID = sid) }

/-- Phase 3: run `cleanup` on every forward bound to the session,
iterating a snapshot of the registry as `sync.Map.Range` does
(src/ssh.go:372-378). -/
def fwdCascade (sid : String) (snapshot : List String) (acc : CoreState) :
    CoreState :=
  snapshot.foldl
    (fun acc fid =>
      if (acc.fwdObjs fid).sessionID = sid then fwdCleanup acc fid else acc)
    acc

/-- Phase 4: delete the session id from the registry and invoke the
host's `onClose` callback (src/ssh.go:401-406); the intervening
channel/client/conn closes are external effects. -/
def closeFinal (st : CoreState) (sid : String) : CoreState :=
  { st with
    sessReg := st.sessReg.filter (fun i => ¬ i = sid),
    sessObjs := fun i =>
      if i = sid then
        { st.sessObjs sid with
          onCloseCalls := (st.sessObjs sid).onCloseCalls + 1 }
      else st.sessObjs i }

/-- Embeds `session.close` (src/ssh.go:357-408): under the `closeOnce`
latch, run the four phases in source order; a latched session is left
untouched. -/
def sessionClose (st : CoreState) (sid : String) : CoreState :=
  if (st.sessObjs sid).onceUsed then st
  else
    closeFinal
      (fwdCascade sid ((closeSftp (closeMark st sid) sid).fwdReg)
        (closeSftp (closeMark st sid) sid)) sid

/-- `n` successive `close` calls (concurrent callers serialize on the
`sync.Once` latch, so caller multiplicity reduces to call count). -/
def sessionCloseTimes : Nat → CoreState → String → CoreState
  | 0, st, _ => st
  | n + 1, st, sid => sessionCloseTimes n (sessionClose st sid) sid

theorem fwdCleanup_keeps (acc : CoreState) (fid : String) :
    (fwdCleanup acc fid).sessObjs = acc.sessObjs ∧
    (fwdCleanup acc fid).sessReg = acc.sessReg ∧
    (fwdCleanup acc fid).sftpReg = acc.sftpReg ∧
    (fwdCleanup acc fid).sftpClosed = acc.sftpClosed := by
  unfold fwdCleanup
  split <;> exact ⟨rfl, rfl, rfl, rfl⟩

theorem fwdCleanup_sessionID (acc : CoreState) (fid j : String) :
    ((fwdCleanup acc fid).fwdObjs j).sessionID = (acc.fwdObjs j).sessionID := by
  unfold fwdCleanup
  split
  · rfl
  · by_cases h : j = fid
    · subst h; simp
    · simp [h]

theorem fwdCleanup_objs_other (acc : CoreState) (fid j : String) (hj : j ≠ fid) :
    (fwdCleanup acc fid).fwdObjs j = acc.fwdObjs j := by
  unfold fwdCleanup
  split
  · rfl
  · simp [hj]

theorem fwdCleanup_reg (acc : CoreState) (fid : String)
    (h : (acc.fwdObjs fid).cleaned = false) :
    (fwdCleanup acc fid).fwdReg = acc.fwdReg.filter (fun i => ¬ i = fid) := by
  unfold fwdCleanup
  rw [if_neg (by simp [h])]

theorem fwdCleanup_cleaned_mono (acc : CoreState) (fid j : String)
    (h : (acc.fwdObjs j).cleaned = true) :
    ((fwdCleanup acc fid).fwdObjs j).cleaned = true := by
  unfold fwdCleanup
  split
  · exact h
  · by_cases hj : j = fid
    · subst hj; simp
    · simp [hj, h]

theorem fwdCleanup_cleans_self (acc : CoreState) (fid : String) :
    ((fwdCleanup acc fid).fwdObjs fid).cleaned = true := by
  unfold fwdCleanup
  split
  · assumption
  · simp

theorem fwdCascade_cons (sid f : String) (rest : List String) (acc : CoreState) :
    fwdCascade sid (f :: rest) acc =
      fwdCascade sid rest
        (if (acc.fwdObjs f).sessionID = sid then fwdCleanup acc f else acc) := rfl

theorem fwdCascade_keeps (sid : String) :
    ∀ (L : List String) (acc : CoreState),
      (fwdCascade sid L acc).sessObjs = acc.sessObjs ∧
      (fwdCascade sid L acc).sessReg = acc.sessReg ∧
      (fwdCascade sid L acc).sftpReg = acc.sftpReg ∧
      (fwdCascade sid L acc).sftpClosed = acc.sftpClosed := by
  intro L
  induction L with
  | nil => intro acc; exact ⟨rfl, rfl, rfl, rfl⟩
  | cons f rest ih =>
    intro acc
    rw [fwdCascade_cons]
    obtain ⟨h1, h2, h3, h4⟩ :=
      ih (if (acc.fwdObjs f).sessionID = sid then fwdCleanup acc f else acc)
    rw [h1, h2, h3, h4]
    by_cases hm : (acc.fwdObjs f).sessionID = sid
    · rw [if_pos hm]; exact fwdCleanup_keeps acc f
    · rw [if_neg hm]; exact ⟨rfl, rfl, rfl, rfl⟩

theorem fwdCascade_sessionID (sid : String) :
    ∀ (L : List String) (acc : CoreState) (j : String),
      ((fwdCascade sid L acc).fwdObjs j).sessionID =
        (acc.fwdObjs j).sessionID := by
  intro L
  induction L with
  | nil => intro acc j; rfl
  | cons f rest ih =>
    intro acc j
    rw [fwdCascade_cons, ih]
    by_cases hm : (acc.fwdObjs f).sessionID = sid
    · rw [if_pos hm]; exact fwdCleanup_sessionID acc f j
    · rw [if_neg hm]

theorem fwdCascade_cleaned_mono (sid : String) :
    ∀ (L : List String) (acc : CoreState) (j : String),
      (acc.fwdObjs j).cleaned = true →
      ((fwdCascade sid L acc).fwdObjs j).cleaned = true := by
  intro L
  induction L with
  | nil => intro acc j h; exact h
  | cons f rest ih =>
    intro acc j h
    rw [fwdCascade_cons]
    apply ih
    by_cases hm : (acc.fwdObjs f).sessionID = sid
    · rw [if_pos hm]; exact fwdCleanup_cleaned_mono acc f j h
    · rw [if_neg hm]; exact h

theorem fwdCascade_no_match (sid : String) :
    ∀ (L : List String) (acc : CoreState),
      (∀ fid ∈ acc.fwdReg, (acc.fwdObjs fid).cleaned = false) →
      (∀ fid ∈ acc.fwdReg, (acc.fwdObjs fid).sessionID = sid → fid ∈ L) →
      ∀ fid ∈ (fwdCascade sid L acc).fwdReg,
        ((fwdCascade sid L acc).fwdObjs fid).sessionID ≠ sid := by
  intro L
  induction L with
  | nil =>
    intro acc _ hpre fid hfid hmatch
    exact absurd (hpre fid hfid hmatch) (List.not_mem_nil fid)
  | cons f rest ih =>
    intro acc hclean hpre
    rw [fwdCascade_cons]
    by_cases hm : (acc.fwdObjs f).sessionID = sid
    · rw [if_pos hm]
      by_cases hcf : (acc.fwdObjs f).cleaned = true
      · have hfe : fwdCleanup acc f = acc := by
          unfold fwdCleanup; rw [if_pos hcf]
        rw [hfe]
        refine ih acc hclean ?_
        intro fid hfid hmatch
        rcases List.mem_cons.mp (hpre fid hfid hmatch) with hc | hc
        · subst hc; rw [hclean fid hfid] at hcf; cases hcf
        · exact hc
      · have hcf' : (acc.fwdObjs f).cleaned = false := by simpa using hcf
        refine ih (fwdCleanup acc f) ?_ ?_
        · intro fid hfid
          rw [fwdCleanup_reg acc f hcf'] at hfid
          have hmem := List.mem_filter.mp hfid
          have hne2 : fid ≠ f := by simpa using hmem.2
          rw [fwdCleanup_objs_other acc f fid hne2]
          exact hclean fid hmem.1
        · intro fid hfid hmatch
          rw [fwdCleanup_reg acc f hcf'] at hfid
          have hmem := List.mem_filter.mp hfid
          have hne2 : fid ≠ f := by simpa using hmem.2
          rw [fwdCleanup_objs_other acc f fid hne2] at hmatch
          rcases List.mem_cons.mp (hpre fid hmem.1 hmatch) with hc | hc
          · exact absurd hc hne2
          · exact hc
    · rw [if_neg hm]
      refine ih acc hclean ?_
      intro fid hfid hmatch
      rcases List.mem_cons.mp (hpre fid hfid hmatch) with hc | hc
      · subst hc; exact absurd hmatch hm
      · exact hc

theorem fwdCascade_matching_cleaned (sid : String) :
    ∀ (L : List String) (acc : CoreState),
      ∀ fid ∈ L, (acc.fwdObjs fid).sessionID = sid →
        ((fwdCascade sid L acc).fwdObjs fid).cleaned = true := by
  intro L
  induction L with
  | nil => intro acc fid hfid; exact absurd hfid (List.not_mem_nil fid)
  | cons f rest ih =>
    intro acc fid hfid hmatch
    rw [fwdCascade_cons]
    rcases List.mem_cons.mp hfid with hc | hc
    · subst hc
      rw [if_pos hmatch]
      exact fwdCascade_cleaned_mono sid rest _ fid (fwdCleanup_cleans_self acc fid)
    · by_cases hm : (acc.fwdObjs f).sessionID = sid
      · rw [if_pos hm]
        exact ih _ fid hc (by rw [fwdCleanup_sessionID]; exact hmatch)
      · rw [if_neg hm]
        exact ih acc fid hc hmatch

theorem sessionClose_fresh (st : CoreState) (sid : String)
    (hfresh : (st.sessObjs sid).onceUsed = false) :
    sessionClose st sid =
      closeFinal
        (fwdCascade sid ((closeSftp (closeMark st sid) sid).fwdReg)
          (closeSftp (closeMark st sid) sid)) sid := by
  unfold sessionClose
  rw [if_neg (by simp [hfresh])]

theorem closeFinal_objs_self (st : CoreState) (sid : String) :
    (closeFinal st sid).sessObjs sid =
      { st.sessObjs sid with
        onCloseCalls := (st.sessObjs sid).onCloseCalls + 1 } := by
  simp [closeFinal]

theorem closeMark_objs_self (st : CoreState) (sid : String) :
    (closeMark st sid).sessObjs sid =
      { st.sessObjs sid with onceUsed := true, cancelled := true } := by
  simp [closeMark]

theorem sessionCloseTimes_stable (sid : String) :
    ∀ (m : Nat) (s : CoreState), (s.sessObjs sid).onceUsed = true →
      sessionCloseTimes m s sid = s := by
  intro m
  induction m with
  | zero => intro s _; rfl
  | succ m ih =>
    intro s hs
    show sessionCloseTimes m (sessionClose s sid) sid = s
    have hid : sessionClose s sid = s := by
      unfold sessionClose
      rw [if_pos hs]
    rw [hid]
    exact ih s hs

/-- Claim C9: from a live session (latch not taken, callback not yet
invoked, with the program invariant that registered forwards are not
yet cleaned), any positive number of `close` calls runs the teardown
exactly once: the host's `onClose` callback is invoked exactly once,
the session id leaves the session registry, every SFTP client bound to
the session is closed and removed from the SFTP registry, and every
forward bound to the session is cleaned up and removed from the forward
registry. -/
theorem session_close_idempotent_cleanup (st : CoreState) (sid : String) (n : Nat)
    (hfresh : (st.sessObjs sid).onceUsed = false)
    (hzero : (st.sessObjs sid).onCloseCalls = 0)
    (hclean : ∀ fid ∈ st.fwdReg, (st.fwdObjs fid).cleaned = false) :
    ((sessionCloseTimes (n + 1) st sid).sessObjs sid).onCloseCalls = 1 ∧
    sid ∉ (sessionCloseTimes (n + 1) st sid).sessReg ∧
    (∀ e ∈ (sessionCloseTimes (n + 1) st sid).sftpReg, e.sessionID ≠ sid) ∧
    (∀ e ∈ st.sftpReg, e.sessionID = sid →
      e.sftpID ∈ (sessionCloseTimes (n + 1) st sid).sftpClosed) ∧
    (∀ fid ∈ (sessionCloseTimes (n + 1) st sid).fwdReg,
      ((sessionCloseTimes (n + 1) st sid).fwdObjs fid).sessionID ≠ sid) ∧
    (∀ fid ∈ st.fwdReg, (st.fwdObjs fid).sessionID = sid →
      ((sessionCloseTimes (n + 1) st sid).fwdObjs fid).cleaned = true ∧
      fid ∉ (sessionCloseTimes (n + 1) st sid).fwdReg) := by
  set A := closeMark st sid with hA
  set B := closeSftp A sid with hB
  set C := fwdCascade sid B.fwdReg B with hC
  have hBobjs : B.sessObjs = A.sessObjs := rfl
  have hBfwdO : B.fwdObjs = st.fwdObjs := rfl
  have hBfwdR : B.fwdReg = st.fwdReg := rfl
  have hCkeeps := fwdCascade_keeps sid B.fwdReg B
  have hclose : sessionClose st sid = closeFinal C sid := by
    rw [sessionClose_fresh st sid hfresh, ← hA, ← hB, ← hC]
  have honce : ((sessionClose st sid).sessObjs sid).onceUsed = true := by
    rw [hclose, closeFinal_objs_self]
    show (C.sessObjs sid).onceUsed = true
    rw [hCkeeps.1, hBobjs, hA, closeMark_objs_self]
  have htimes : sessionCloseTimes (n + 1) st sid = closeFinal C sid := by
    show sessionCloseTimes n (sessionClose st sid) sid = _
    rw [sessionCloseTimes_stable sid n (sessionClose st sid) honce, hclose]
  rw [htimes]
  refine ⟨?_, ?_, ?_, ?_, ?_, ?_⟩
  · rw [closeFinal_objs_self]
    show (C.sessObjs sid).onCloseCalls + 1 = 1
    rw [hCkeeps.1, hBobjs, hA, closeMark_objs_self]
    show (st.sessObjs sid).onCloseCalls + 1 = 1
    rw [hzero]
  · show sid ∉ C.sessReg.filter (fun i => ¬ i = sid)
    intro hmem
    have := (List.mem_filter.mp hmem).2
    simp at this
  · show ∀ e ∈ C.sftpReg, e.sessionID ≠ sid
    rw [hCkeeps.2.2.1]
    show ∀ e ∈ A.sftpReg.filter (fun e => ¬ e.sessionID = sid), e.sessionID ≠ sid
    intro e he
    have := (List.mem_filter.mp he).2
    simpa using this
  · intro e he hmatch
    show e.sftpID ∈ C.sftpClosed
    rw [hCkeeps.2.2.2]
    show e.sftpID ∈ st.sftpClosed ++
      (st.sftpReg.filter (fun e => e.sessionID = sid)).map (·.sftpID)
    refine List.mem_append.mpr (Or.inr ?_)
    exact List.mem_map.mpr
      ⟨e, List.mem_filter.mpr ⟨he, by simp [hmatch]⟩, rfl⟩
  · show ∀ fid ∈ C.fwdReg, (C.fwdObjs fid).sessionID ≠ sid
    refine fwdCascade_no_match sid B.fwdReg B ?_ ?_
    · rw [hBfwdR, hBfwdO]; exact hclean
    · intro fid hfid _; exact hfid
  · intro fid hfid hmatch
    have hcleaned : (C.fwdObjs fid).cleaned = true := by
      refine fwdCascade_matching_cleaned sid B.fwdReg B fid ?_ ?_
      · rw [hBfwdR]; exact hfid
      · rw [hBfwdO]; exact hmatch
    refine ⟨hcleaned, ?_⟩
    intro hmem
    have hno := fwdCascade_no_match sid B.fwdReg B
      (by rw [hBfwdR, hBfwdO]; exact hclean)
      (fun fid hfid _ => hfid) fid hmem
    have hsess : (C.fwdObjs fid).sessionID = sid := by
      rw [hC, fwdCascade_sessionID, hBfwdO]
      exact hmatch
    exact hno hsess

/-- Witness instantiating `session_close_idempotent_cleanup` on a
two-session, two-forward state, closing session "s" twice. -/
theorem session_close_idempotent_cleanup_witness :
    ((sessionCloseTimes 2
        { sessObjs := fun i =>
            if i = "s" then
              { onceUsed := false, cancelled := false, onCloseCalls := 0 }
            else { onceUsed := false, cancelled := false, onCloseCalls := 0 },
          sessReg := ["s", "t"],
          sftpReg := [{ sftpID := "f1", sessionID := "s" },
                      { sftpID := "f2", sessionID := "t" }],
          sftpClosed := [],
          fwdObjs := fun i =>
            if i = "w1" then
              { sessionID := "s", cleaned := false, fwdCancelled := false,
                connClosed := false }
            else
              { sessionID := "t", cleaned := false, fwdCancelled := false,
                connClosed := false },
          fwdReg := ["w1", "w2"] } "s").sessObjs "s").onCloseCalls = 1 := by
  refine (session_close_idempotent_cleanup _ "s" 1 ?_ ?_ ?_).1
  · rfl
  · rfl
  · intro fid hfid
    fin_cases hfid <;> rfl

/-! ## Random-art renderer (randomart.go, src/ssh.go lines 883-1070) -/

/-- Grid dimensions (randomart.go: `artWidth`, `artHeight`). -/
def artWidth : Nat := 17

def artHeight : Nat := 9

/-- The visit-count display table (randomart.go: `artCharsStr`). -/
def artCharsStr : String := " .o+=*BOX@%&#/^SE"

def artChars : List Char := artCharsStr.data

/-- `artStartMarker` / `artEndMarker`: the last two table entries. -/
def artStartMarker : Nat := artChars.length - 2

def artEndMarker : Nat := artChars.length - 1

/-- The two clamping `if`s after each move (randomart.go:978-990):
coordinates are forced into `[0, hi)`. -/
def clampCoord (v : Int) (hi : Nat) : Nat :=
  if v < 0 then 0 else if v ≥ (hi : Int) then hi - 1 else v.toNat

/-- The bishop move table (randomart.go:962-976): two direction bits
pick one diagonal step, `3` being the `default`-like final case. -/
def dirDelta (dir : Nat) : Int × Int :=
  match dir with
  | 0 => (-1, -1)
  | 1 => (1, -1)
  | 2 => (-1, 1)
  | _ => (1, 1)

/-- Visit-count increment with Go `byte` wrap-around
(randomart.go:992). -/
def bumpCell (f : Nat → Nat → Nat) (y x : Nat) : Nat → Nat → Nat :=
  fun r c => if r = y ∧ c = x then (f y x + 1) % 256 else f r c

def setCell (f : Nat → Nat → Nat) (y x v : Nat) : Nat → Nat → Nat :=
  fun r c => if r = y ∧ c = x then v else f r c

/-- The walking bishop: position and visit-count field. -/
structure ArtState where
  x : Nat
  y : Nat
  field : Nat → Nat → Nat

/-- One bishop step: move diagonally, clamp to the grid, mark the
cell. -/
def artStep (st : ArtState) (dir : Nat) : ArtState :=
  let d := dirDelta dir
  let nx := clampCoord ((st.x : Int) + d.1) artWidth
  let ny := clampCoord ((st.y : Int) + d.2) artHeight
  { x := nx, y := ny, field := bumpCell st.field ny nx }

/-- Process one hash byte: four 2-bit directions, LSB first
(randomart.go:957-994). -/
def artWalkByte (st : ArtState) (b : Nat) : ArtState :=
  [0, 2, 4, 6].foldl (fun s shift => artStep s ((b >>> shift) &&& 3)) st

/-- Start at the grid center (randomart.go:954). -/
def artInit : ArtState :=
  { x := artWidth / 2, y := artHeight / 2, field := fun _ _ => 0 }

def artWalk (hash : List Nat) : ArtState :=
  hash.foldl artWalkByte artInit

/-- The field after the walk with the start and end markers written
(randomart.go:996-999; the end marker overwrites the start marker when
the walk returns to the center). -/
def artFinalField (hash : List Nat) : Nat → Nat → Nat :=
  setCell
    (setCell (artWalk hash).field (artHeight / 2) (artWidth / 2) artStartMarker)
    (artWalk hash).y (artWalk hash).x artEndMarker

/-- Render one visit count (randomart.go:1026-1030): indices past the
table are capped at `len - 3` before indexing. -/
def cellChar (v : Nat) : Char :=
  artChars.getD (if v ≥ artChars.length then artChars.length - 3 else v) ' '

/-- The 17 cell characters of one grid row. -/
def artRowChars (f : Nat → Nat → Nat) (y : Nat) : List Char :=
  (List.range artWidth).map fun x => cellChar (f y x)

def artDashes (n : Nat) : List Char := List.replicate n '-'

/-- The top border (randomart.go:1004-1020): `+`, clamped left padding,
`[KEYTYPE BITS]`, clamped right padding, `+`.  Natural-number
subtraction saturates at zero exactly like Go's explicit
`if pad < 0 { pad = 0 }` clamps. -/
def topBorderChars (keyType : String) (bits : Nat) : List Char :=
  '+' :: artDashes ((artWidth - (keyType.toUpper ++ " " ++ toString bits).data.length - 4) / 2) ++
    '[' :: (keyType.toUpper ++ " " ++ toString bits).data ++
    ']' :: artDashes (artWidth -
      ((artWidth - (keyType.toUpper ++ " " ++ toString bits).data.length - 4) / 2) -
      (keyType.toUpper ++ " " ++ toString bits).data.length - 2) ++ ['+']

/-- The bottom border (randomart.go:1035-1050). -/
def bottomBorderChars (hashName : String) : List Char :=
  '+' :: artDashes ((artWidth - hashName.data.length - 2) / 2) ++
    '[' :: hashName.data ++
    ']' :: artDashes (artWidth - ((artWidth - hashName.data.length - 2) / 2) -
      hashName.data.length - 2) ++ ['+']

/-- Embeds `randomArtFromHash` (randomart.go:950-1053): top border,
newline, nine `|`-delimited grid rows each followed by a newline, and
the bottom border without a trailing newline.  The Lean function is
total: no hash, key-type label, bit count, or hash-name label can make
it panic (the Go code's clamps on visit counts and paddings are the
corresponding `if`s above). -/
def randomArtFromHash (hash : List Nat) (keyType : String) (bits : Nat)
    (hashName : String) : String :=
  ⟨topBorderChars keyType bits ++ '\n' ::
    (((List.range artHeight).map
        (fun y => ('|' :: artRowChars (artFinalField hash) y ++ ['|']) ++ ['\n'])).flatten ++
      bottomBorderChars hashName)⟩

theorem cellChar_mem (v : Nat) : cellChar v ∈ artCharsStr.data := by
  unfold cellChar
  have hlen : artChars.length = 17 := by decide
  have hbound : ∀ i, i < 17 → artChars.getD i ' ' ∈ artCharsStr.data := by decide
  refine hbound _ ?_
  by_cases h : v ≥ artChars.length
  · rw [if_pos h]; decide
  · rw [if_neg h]
    push_neg at h
    omega

/-- Claim C10: for every hash byte string, key-type label, bit count,
and hash-name label, `randomArtFromHash` returns (totally — no panic) a
string consisting of a top border, exactly 9 grid rows each holding
exactly 17 cell characters between `|` borders with every cell drawn
from the fixed table `" .o+=*BOX@%&#/^SE"`, and a bottom border; both
borders start and end with `+` because the paddings are clamped at
zero. -/
theorem random_art_frame_structure (hash : List Nat) (keyType : String)
    (bits : Nat) (hashName : String) :
    ∃ (top bottom : List Char) (rows : List (List Char)),
      (randomArtFromHash hash keyType bits hashName).data =
        top ++ ['\n'] ++ (rows.map (· ++ ['\n'])).flatten ++ bottom ∧
      rows.length = 9 ∧
      (∀ r ∈ rows, ∃ cells : List Char,
        r = '|' :: cells ++ ['|'] ∧ cells.length = 17 ∧
        ∀ c ∈ cells, c ∈ artCharsStr.data) ∧
      top.head? = some '+' ∧ top.getLast? = some '+' ∧
      bottom.head? = some '+' ∧ bottom.getLast? = some '+' := by
  refine ⟨topBorderChars keyType bits, bottomBorderChars hashName,
    (List.range artHeight).map
      (fun y => '|' :: artRowChars (artFinalField hash) y ++ ['|']),
    ?_, ?_, ?_, ?_, ?_, ?_, ?_⟩
  · show (topBorderChars keyType bits ++ '\n' ::
        (((List.range artHeight).map
            (fun y => ('|' :: artRowChars (artFinalField hash) y ++ ['|']) ++
              ['\n'])).flatten ++ bottomBorderChars hashName)) = _
    rw [List.map_map]
    simp only [List.append_assoc, List.cons_append, List.singleton_append,
      Function.comp]
    congr 2
  · simp [artHeight]
  · intro r hr
    obtain ⟨y, _, rfl⟩ := List.mem_map.mp hr
    refine ⟨artRowChars (artFinalField hash) y, rfl, ?_, ?_⟩
    · simp [artRowChars, artWidth]
    · intro c hc
      obtain ⟨x, _, rfl⟩ := List.mem_map.mp hc
      exact cellChar_mem _
  · rfl
  · have hre : topBorderChars keyType bits =
        ('+' :: (artDashes ((artWidth -
            (keyType.toUpper ++ " " ++ toString bits).data.length - 4) / 2) ++
          '[' :: ((keyType.toUpper ++ " " ++ toString bits).data ++
          ']' :: artDashes (artWidth -
            ((artWidth - (keyType.toUpper ++ " " ++ toString bits).data.length - 4) / 2) -
            (keyType.toUpper ++ " " ++ toString bits).data.length - 2)))) ++ ['+'] := by
      simp [topBorderChars, List.append_assoc]
    rw [hre]
    exact List.getLast?_concat _
  · rfl
  · have hre : bottomBorderChars hashName =
        ('+' :: (artDashes ((artWidth - hashName.data.length - 2) / 2) ++
          '[' :: (hashName.data ++
          ']' :: artDashes (artWidth -
            ((artWidth - hashName.data.length - 2) / 2) -
            hashName.data.length - 2)))) ++ ['+'] := by
      simp [bottomBorderChars, List.append_assoc]
    rw [hre]
    exact List.getLast?_concat _

/-- Witness instantiating `random_art_frame_structure` on the test
vector used by the repository's own `TestRandomArtFromHash`. -/
theorem random_art_frame_structure_witness :
    ∃ (top bottom : List Char) (rows : List (List Char)),
      (randomArtFromHash [0xde, 0xad, 0xbe, 0xef] "ssh-rsa" 4096 "MD5").data =
        top ++ ['\n'] ++ (rows.map (· ++ ['\n'])).flatten ++ bottom ∧
      rows.length = 9 ∧
      (∀ r ∈ rows, ∃ cells : List Char,
        r = '|' :: cells ++ ['|'] ∧ cells.length = 17 ∧
        ∀ c ∈ cells, c ∈ artCharsStr.data) ∧
      top.head? = some '+' ∧ top.getLast? = some '+' ∧
      bottom.head? = some '+' ∧ bottom.getLast? = some '+' :=
  random_art_frame_structure [0xde, 0xad, 0xbe, 0xef] "ssh-rsa" 4096 "MD5"

/-- Witness instantiating the universally quantified part of
`hostkey_missing_callback_accepts_all`: even with the opt-in flag set,
the missing-callback path is the same accept-all path (the code never
reads the flag). -/
theorem hostkey_missing_callback_accepts_all_witness :
    makeHostKeyCallback
      { proxyUrl := "", host := "", port := 0, username := "",
        authMethod := "", password := "", keyPEM := "", keyParses := false,
        agentKeysLoaded := false, hasOnHostKey := false,
        allowInsecureHostKey := true } =
      HostKeyPolicy.insecureAcceptAll :=
  hostkey_missing_callback_accepts_all.2.2 _ rfl
